import Mathlib

/-!
Shallow embedding of the rseng/rseng-activity scripts
(`measure-activity.py` and `plot-activity.py`) and proofs about them.

Conventions of the embedding:
* JSON objects persisted keyed by URL are association lists `List (String × α)`
  (Python dicts with string keys; keys are inserted only when absent, so
  shadowing never occurs).
* Calendar timestamps are day-granular `Date` values (year, month, day);
  `pandas.DateOffset(months = k)` is `Date.addMonths`, which adds `k` months in
  one step and clamps the day to the target month's length, exactly as pandas
  does.  `datetime.now()` keeps sub-day precision, so "now" is an `Instant`:
  a `Date` plus seconds after midnight.  A day-granular value entering a
  comparison against "now" sits at midnight of its day.
* Fallible Python code is `Except String α`; an uncaught Python exception is
  `.error msg`.
-/

/-- A calendar date (year, month 1..12, day 1..31). -/
structure Date where
  y : Nat
  m : Nat
  d : Nat
deriving DecidableEq

/-- Gregorian month lengths, with leap years for February. -/
def daysInMonth (y m : Nat) : Nat :=
  if m = 2 then
    if y % 4 = 0 ∧ (y % 100 ≠ 0 ∨ y % 400 = 0) then 29 else 28
  else if m = 4 ∨ m = 6 ∨ m = 9 ∨ m = 11 then 30 else 31

/-- `pandas.DateOffset(months = k)` applied to a date: add `k` months in one
step from the original date and clamp the day-of-month to the target month's
length (pandas semantics, e.g. Jan 31 + 1 month = Feb 28). -/
def Date.addMonths (dt : Date) (k : Nat) : Date :=
  let t := dt.m - 1 + k
  let y := dt.y + t / 12
  let m := t % 12 + 1
  ⟨y, m, min dt.d (daysInMonth y m)⟩

/-- Strict lexicographic order on dates (pandas `Timestamp` comparison at day
granularity). -/
def Date.lt (a b : Date) : Prop :=
  a.y < b.y ∨ (a.y = b.y ∧ (a.m < b.m ∨ (a.m = b.m ∧ a.d < b.d)))

instance (a b : Date) : Decidable (Date.lt a b) := by
  unfold Date.lt; infer_instance

theorem Date.lt_trans {a b c : Date} (h1 : Date.lt a b) (h2 : Date.lt b c) :
    Date.lt a c := by
  unfold Date.lt at h1 h2 ⊢; omega

/-- Adding one more month always yields a strictly later date: the target
month (and possibly year) strictly increases, so the clamped day is
irrelevant to the lexicographic comparison. -/
theorem Date.addMonths_lt_succ (dt : Date) (k : Nat) :
    Date.lt (dt.addMonths k) (dt.addMonths (k + 1)) := by
  unfold Date.addMonths Date.lt
  simp only
  omega

/-- An instant: a calendar day plus seconds after midnight.
`datetime.now()` is an instant; day-granular pandas timestamps are instants
with `sec = 0`. -/
structure Instant where
  date : Date
  sec : Nat
deriving DecidableEq

/-- Strict comparison of instants. -/
def Instant.lt (a b : Instant) : Prop :=
  Date.lt a.date b.date ∨ (a.date = b.date ∧ a.sec < b.sec)

instance (a b : Instant) : Decidable (Instant.lt a b) := by
  unfold Instant.lt; infer_instance

/-- Non-strict comparison of instants. -/
def Instant.le (a b : Instant) : Prop := Instant.lt a b ∨ a = b

instance (a b : Instant) : Decidable (Instant.le a b) := by
  unfold Instant.le; infer_instance

/-- The midnight instant of a day-granular timestamp. -/
def midnight (d : Date) : Instant := ⟨d, 0⟩

/-!  ## The classifier (`plot-activity.py`, `derive_high_valued`)

One row of the dataframe built by `prepare_data_frame`: `repo` (URL),
`last_commit_date` (day-normalized) and `published_date`
(`NaT`, i.e. `none`, when the published string does not parse — pandas
comparisons with `NaT` are always `False`). -/
structure PlotRec where
  repo : String
  last_commit : Date
  published : Option Date
deriving DecidableEq

/-- `df[f"{month}_months_high_value"] = df.last_commit_date > df[f"{month}_months_post_add"]`
with `post_add = published_date + DateOffset(months = month)`.
A `NaT` published date compares `False`. -/
def highValue (r : PlotRec) (month : Nat) : Bool :=
  match r.published with
  | none => false
  | some p => decide (Date.lt (p.addMonths month) r.last_commit)

/-- `df[f"{month}_months_is_not_future"] = df[f"{month}_months_post_add"] < today`.
`post_add` is a midnight timestamp, `today = datetime.now()` an instant. -/
def notFuture (now : Instant) (r : PlotRec) (month : Nat) : Bool :=
  match r.published with
  | none => false
  | some p => decide (Instant.lt (midnight (p.addMonths month)) now)

/-- `updated_repos = df[df[f"{month}_months_high_value"] == True].repo.tolist()` -/
def updatedRepos (recs : List PlotRec) (month : Nat) : List String :=
  (recs.filter (fun r => highValue r month)).map (fun r => r.repo)

/-- `update_count = len(updated_repos)`, appended to `updated_at_period`. -/
def updatedAtPeriod (recs : List PlotRec) (month : Nat) : Nat :=
  (updatedRepos recs month).length

/-- `not_future = df[df[f"{month}_months_is_not_future"] == True]` -/
def notFutureRecs (now : Instant) (recs : List PlotRec) (month : Nat) : List PlotRec :=
  recs.filter (fun r => notFuture now r month)

/-- `percent_updated = len(updated_repos)/not_future.shape[0]`.
Integer/float division by zero raises `ZeroDivisionError` in Python, which is
uncaught in `derive_high_valued`. -/
def percentUpdated (now : Instant) (recs : List PlotRec) (month : Nat) :
    Except String ℚ :=
  let u := (updatedRepos recs month).length
  let nf := (notFutureRecs now recs month).length
  if nf = 0 then .error "ZeroDivisionError"
  else .ok ((u : ℚ) / (nf : ℚ))

/-- The per-row condition of `(next_month > today)` where
`next_month = published_date + DateOffset(months = month + 1)`;
`NaT` rows compare `False`. -/
def nextGtToday (now : Instant) (month : Nat) (r : PlotRec) : Bool :=
  match r.published with
  | none => false
  | some p => decide (Instant.lt now (midnight (p.addMonths (month + 1))))

/-- `high_valued_relative[month]`: for each row of `not_future`, take its repo
if `(df[df.repo == repo].published_date + DateOffset(months=month+1) > today).all()`. -/
def relativeSet (now : Instant) (recs : List PlotRec) (month : Nat) : List String :=
  ((notFutureRecs now recs month).filter
      (fun r => (recs.filter (fun q => q.repo == r.repo)).all
        (fun q => nextGtToday now month q))).map
    (fun r => r.repo)

/-- `high_valued_global.add(repo)`: Python `set` insertion, modelled as an
order-preserving duplicate-free list. -/
def setInsert (s : List String) (x : String) : List String :=
  if s.contains x then s else s ++ [x]

/-- The `high_valued_global` set accumulated over `month in range(0, 41)` with
the `month >= 24` guard, i.e. over months 24..40. -/
def highValuedGlobal (now : Instant) (recs : List PlotRec) : List String :=
  (List.range' 24 17).foldl
    (fun acc month => (relativeSet now recs month).foldl setInsert acc) []

/-- `sorted(list(high_valued_global))`, the flat sorted list written to
`highest-value-global-after-24-months.json`. -/
def writtenGlobal (now : Instant) (recs : List PlotRec) : List String :=
  List.insertionSort (fun a b : String => a ≤ b) (highValuedGlobal now recs)

/-!  ## The collection pipeline (`measure-activity.py`)

Persisted JSON stores are association lists keyed by URL.  Keys are only ever
inserted when absent, matching the `if repo.url in added: continue` /
`if ... repo.url in meta: continue` guards, so the head-most binding is the
only binding. -/

/-- The raw `doi` field of a catalog entry: absent (`None`), a string, or a
list of strings (the code takes the first element of a list). -/
inductive DoiField where
  | absent : DoiField
  | str (s : String) : DoiField
  | many (l : List String) : DoiField
deriving DecidableEq

/-- Python truthiness of a `doi` field: `None`, `""` and `[]` are falsy. -/
def pyTruthy : DoiField → Bool
  | .absent => false
  | .str s => !(s == "")
  | .many l => !l.isEmpty

/-- Outcome of `requests.get(zenodo_url)` followed by `r.json()`:
`fail e` models a raised exception (network error or JSON parse error);
`ok none` a well-formed JSON body without a `"metadata"` key;
`ok (some p)` a body with `metadata.publication_date = p`. -/
inductive FetchResult where
  | fail (e : String) : FetchResult
  | ok (metadata : Option String) : FetchResult

/-- Substring test on character lists (structural, kernel-reducible). -/
def hasSub (pat : List Char) : List Char → Bool
  | [] => pat.isEmpty
  | c :: rest => pat.isPrefixOf (c :: rest) || hasSub pat rest

/-- `"zenodo" in doi` for a Python string. -/
def containsZenodo (s : String) : Bool := hasSub "zenodo".toList s.toList

/-- Split a character list on a separator character. -/
def splitOnChar (c : Char) : List Char → List (List Char)
  | [] => [[]]
  | a :: rest =>
    let r := splitOnChar c rest
    if a = c then [] :: r
    else
      match r with
      | [] => [[a]]
      | g :: gs => (a :: g) :: gs

/-- `record_id = os.path.basename(doi).split(".")[-1]`. -/
def recordId (s : String) : String :=
  let base := (splitOnChar '/' s.toList).getLastD []
  String.mk ((splitOnChar '.' base).getLastD [])

/-- `look_for_doi(repo)`: `d1` is `repo.data.get("doi")`, `d2` is
`repo.data.get("data", {}).get("doi")`; `fetch` is the zenodo HTTP request.
Returns the `(doi, published)` pair; a raised exception is `.error`. -/
def look_for_doi (d1 d2 : DoiField) (fetch : String → FetchResult) :
    Except String (DoiField × Option String) :=
  let doi0 := if pyTruthy d1 then d1 else d2
  if pyTruthy doi0 = false then .ok (doi0, none)
  else
    let s :=
      match doi0 with
      | .many l => l.headD ""
      | .str t => t
      | .absent => ""
    if containsZenodo s = false then .ok (.str s, none)
    else
      match fetch (recordId s) with
      | .fail e => .error e
      | .ok none => .ok (.str s, none)
      | .ok (some pub) => .ok (.str s, some pub)

/-- One catalog entry as seen by the date phase: its URL, the two raw doi
fields, and the timestamp `creation_date` would report for its metadata file
(the first-commit date; the git call is deterministic for a fixed catalog). -/
structure RepoEntry where
  url : String
  doi1 : DoiField
  doi2 : DoiField
  created_at : String
deriving DecidableEq

/-- The per-URL value of `rsepedia-times.json`:
`{"created_at": ..., "doi": ..., "published": ...}`. -/
structure DateBundle where
  created_at : String
  doi : DoiField
  published : Option String
deriving DecidableEq

/-- `derive_creation_timestamps`: walk the catalog; skip URLs already in the
store; otherwise run `look_for_doi` (whose exceptions propagate — there is no
try/except in this function) and `creation_date`, and insert the bundle.
Also returns the trace of URLs for which a DOI lookup / history search was
actually performed (the non-skipped ones). -/
def derive_creation_timestamps (fetch : String → FetchResult)
    (repos : List RepoEntry) (added : List (String × DateBundle)) :
    Except String (List (String × DateBundle) × List String) :=
  match repos with
  | [] => .ok (added, [])
  | r :: rest =>
    if (List.lookup r.url added).isSome = true then
      derive_creation_timestamps fetch rest added
    else
      match look_for_doi r.doi1 r.doi2 fetch with
      | .error e => .error e
      | .ok (doi, published) =>
        match derive_creation_timestamps fetch rest
            ((r.url, ⟨r.created_at, doi, published⟩) :: added) with
        | .error e => .error e
        | .ok (st, tr) => .ok (st, r.url :: tr)

/-- The date phase as driven by `main`: run `derive_creation_timestamps` over
the whole catalog and only then `write_json(added, added_json)` — a single
write of `rsepedia-times.json`, after the loop.  The second component is the
ordered list of snapshots written to that file. -/
def datePhaseWrites (fetch : String → FetchResult) (repos : List RepoEntry)
    (added : List (String × DateBundle)) :
    Except String (List (String × DateBundle) × List (List (String × DateBundle))) :=
  match derive_creation_timestamps fetch repos added with
  | .error e => .error e
  | .ok (st, _) => .ok (st, [st])

/-- Deterministic environment of the clone loop: per URL, whether
`clone` succeeds (`git clone` exit 0), whether `last_commit` extraction
succeeds, the timestamp it reports, and whether `shutil.rmtree` succeeds. -/
structure ActEnv where
  cloneOk : String → Bool
  extractOk : String → Bool
  lastCommit : String → String
  cleanupOk : String → Bool

/-- How a run of the clone loop ends: normal completion, or `sys.exit(msg)`
(which terminates the process with the given non-zero status). -/
inductive Termination where
  | normal : Termination
  | fatal (code : Nat) (msg : String) : Termination
deriving DecidableEq

/-- The diagnostic passed to `sys.exit` when cleanup fails. -/
def ulimitMsg : String :=
  "Likely too many files, check with ulimit -n and set with ulimit -n 4096"

/-- Result of the clone loop: the in-memory `meta` dict, the ordered snapshots
written to `last-commit-times.json`, the URLs for which a clone was attempted,
and how the loop ended. -/
structure LoopOut where
  meta : List (String × String)
  writes : List (List (String × String))
  clones : List String
  term : Termination
deriving DecidableEq

/-- The clone loop of `main` (lines 180–213), including the final
`write_json(meta, times_json)` after the loop.  Per entry: skip empty or
already-present URLs (`continue`, no write); attempt the clone (recorded in
`clones`); on clone failure `continue` (no cleanup, no write); on success run
`last_commit` (an exception there is caught and leaves `meta` unchanged), then
remove the clone — if removal fails, write the checkpoint and
`sys.exit(ulimitMsg)`; otherwise write the checkpoint and move on. -/
def activityLoop (env : ActEnv) :
    List String → List (String × String) → LoopOut
  | [], meta => ⟨meta, [meta], [], .normal⟩
  | url :: rest, meta =>
    if url = "" ∨ (List.lookup url meta).isSome = true then
      activityLoop env rest meta
    else if env.cloneOk url = true then
      if env.extractOk url = true then
        if env.cleanupOk url = true then
          let out := activityLoop env rest ((url, env.lastCommit url) :: meta)
          ⟨out.meta, ((url, env.lastCommit url) :: meta) :: out.writes,
            url :: out.clones, out.term⟩
        else
          ⟨(url, env.lastCommit url) :: meta,
            [(url, env.lastCommit url) :: meta], [url], .fatal 1 ulimitMsg⟩
      else
        if env.cleanupOk url = true then
          let out := activityLoop env rest meta
          ⟨out.meta, meta :: out.writes, url :: out.clones, out.term⟩
        else
          ⟨meta, [meta], [url], .fatal 1 ulimitMsg⟩
    else
      let out := activityLoop env rest meta
      ⟨out.meta, out.writes, url :: out.clones, out.term⟩

/-- One value of the final `results.json`:
`{last_commit, added_rsepedia, zenodo_published, published, doi}`. -/
structure ReconciledRecord where
  last_commit : String
  added_rsepedia : String
  zenodo_published : Option String
  published : String
  doi : DoiField
deriving DecidableEq

/-- The reconciliation of one URL (lines 220–232 of `main`):
`published = created_at`, overridden by `zenodo_published` when the latter is
truthy (`if zenodo_published:` — `None` and `""` are falsy). -/
def mkReconciled (ts : String) (b : DateBundle) : ReconciledRecord :=
  { last_commit := ts
    added_rsepedia := b.created_at
    zenodo_published := b.published
    published :=
      match b.published with
      | some z => if z = "" then b.created_at else z
      | none => b.created_at
    doi := b.doi }

/-- The terminal combination step (lines 220–234 of `main`): for every pair in
`meta`, look the URL up in `added`; a missing key raises `KeyError` (modelled
as `.error`), aborting before `results.json` is written. -/
def combineResults (meta : List (String × String))
    (added : List (String × DateBundle)) :
    Except String (List (String × ReconciledRecord)) :=
  match meta with
  | [] => .ok []
  | (url, ts) :: rest =>
    match List.lookup url added with
    | none => .error ("KeyError: " ++ url)
    | some b =>
      match combineResults rest added with
      | .error e => .error e
      | .ok rs => .ok ((url, mkReconciled ts b) :: rs)

/-!  ## Helper lemmas -/

theorem combineResults_mem {meta : List (String × String)}
    {added : List (String × DateBundle)}
    {results : List (String × ReconciledRecord)}
    (h : combineResults meta added = .ok results) :
    ∀ url r, (url, r) ∈ results →
      ∃ ts b, List.lookup url added = some b ∧ r = mkReconciled ts b := by
  induction meta generalizing results with
  | nil =>
    simp only [combineResults, Except.ok.injEq] at h
    subst h
    simp
  | cons p rest ih =>
    obtain ⟨url0, ts0⟩ := p
    simp only [combineResults] at h
    cases hl : List.lookup url0 added with
    | none => rw [hl] at h; cases h
    | some b =>
      rw [hl] at h
      cases hc : combineResults rest added with
      | error e => rw [hc] at h; cases h
      | ok rs =>
        rw [hc] at h
        simp only [Except.ok.injEq] at h
        subst h
        intro url r hr
        rcases List.mem_cons.mp hr with heq | htl
        · obtain ⟨h1, h2⟩ := Prod.mk.injEq .. ▸ heq
          subst h1
          exact ⟨ts0, b, hl, h2.symm ▸ rfl⟩
        · exact ih hc url r htl

theorem derive_preserves {fetch : String → FetchResult} {repos : List RepoEntry}
    {added st : List (String × DateBundle)} {tr : List String}
    (h : derive_creation_timestamps fetch repos added = .ok (st, tr)) :
    ∀ u b, List.lookup u added = some b → List.lookup u st = some b := by
  induction repos generalizing added st tr with
  | nil =>
    simp only [derive_creation_timestamps, Except.ok.injEq, Prod.mk.injEq] at h
    obtain ⟨h1, _⟩ := h
    subst h1
    exact fun u b hb => hb
  | cons r rest ih =>
    simp only [derive_creation_timestamps] at h
    by_cases hin : (List.lookup r.url added).isSome = true
    · rw [if_pos hin] at h
      exact ih h
    · rw [if_neg hin] at h
      cases hl : look_for_doi r.doi1 r.doi2 fetch with
      | error e => rw [hl] at h; cases h
      | ok pr =>
        obtain ⟨doi, pub⟩ := pr
        rw [hl] at h
        dsimp only at h
        cases hd : derive_creation_timestamps fetch rest
            ((r.url, ⟨r.created_at, doi, pub⟩) :: added) with
        | error e => rw [hd] at h; cases h
        | ok p2 =>
          obtain ⟨st2, tr2⟩ := p2
          rw [hd] at h
          simp only [Except.ok.injEq, Prod.mk.injEq] at h
          obtain ⟨h1, _⟩ := h
          subst h1
          intro u b hb
          refine ih hd u b ?_
          rw [List.lookup_cons]
          have hne : (u == r.url) = false := by
            by_cases hue : u = r.url
            · subst hue
              exact absurd (by simp [hb]) hin
            · simp [hue]
          simp [hne, hb]

theorem derive_covers {fetch : String → FetchResult} {repos : List RepoEntry}
    {added st : List (String × DateBundle)} {tr : List String}
    (h : derive_creation_timestamps fetch repos added = .ok (st, tr)) :
    ∀ r ∈ repos, (List.lookup r.url st).isSome = true := by
  induction repos generalizing added st tr with
  | nil => simp
  | cons r rest ih =>
    intro q hq
    simp only [derive_creation_timestamps] at h
    by_cases hin : (List.lookup r.url added).isSome = true
    · rw [if_pos hin] at h
      rcases List.mem_cons.mp hq with heq | htl
      · subst heq
        obtain ⟨b, hb⟩ := Option.isSome_iff_exists.mp hin
        simp [derive_preserves h _ _ hb]
      · exact ih h q htl
    · rw [if_neg hin] at h
      cases hl : look_for_doi r.doi1 r.doi2 fetch with
      | error e => rw [hl] at h; cases h
      | ok pr =>
        obtain ⟨doi, pub⟩ := pr
        rw [hl] at h
        dsimp only at h
        cases hd : derive_creation_timestamps fetch rest
            ((r.url, ⟨r.created_at, doi, pub⟩) :: added) with
        | error e => rw [hd] at h; cases h
        | ok p2 =>
          obtain ⟨st2, tr2⟩ := p2
          rw [hd] at h
          simp only [Except.ok.injEq, Prod.mk.injEq] at h
          obtain ⟨h1, _⟩ := h
          subst h1
          rcases List.mem_cons.mp hq with heq | htl
          · subst heq
            have : List.lookup q.url ((q.url, (⟨q.created_at, doi, pub⟩ : DateBundle)) :: added)
                = some ⟨q.created_at, doi, pub⟩ := by
              simp [List.lookup_cons]
            simp [derive_preserves hd _ _ this]
          · exact ih hd q htl

theorem derive_idem {fetch : String → FetchResult} {repos : List RepoEntry}
    {added : List (String × DateBundle)}
    (h : ∀ r ∈ repos, (List.lookup r.url added).isSome = true) :
    derive_creation_timestamps fetch repos added = .ok (added, []) := by
  induction repos with
  | nil => rfl
  | cons r rest ih =>
    simp only [derive_creation_timestamps]
    rw [if_pos (h r (by simp))]
    exact ih (fun q hq => h q (by simp [hq]))

theorem loop_nil (env : ActEnv) (meta : List (String × String)) :
    activityLoop env [] meta = ⟨meta, [meta], [], .normal⟩ := rfl

theorem loop_cons_skip (env : ActEnv) (url : String) (rest : List String)
    (meta : List (String × String))
    (h : url = "" ∨ (List.lookup url meta).isSome = true) :
    activityLoop env (url :: rest) meta = activityLoop env rest meta := by
  simp only [activityLoop]
  rw [if_pos h]

theorem loop_cons_clone_fail (env : ActEnv) (url : String) (rest : List String)
    (meta : List (String × String))
    (h1 : ¬(url = "" ∨ (List.lookup url meta).isSome = true))
    (h2 : env.cloneOk url = false) :
    activityLoop env (url :: rest) meta
      = ⟨(activityLoop env rest meta).meta, (activityLoop env rest meta).writes,
          url :: (activityLoop env rest meta).clones,
          (activityLoop env rest meta).term⟩ := by
  simp only [activityLoop]
  rw [if_neg h1, if_neg (by simp [h2])]

theorem loop_cons_recorded (env : ActEnv) (url : String) (rest : List String)
    (meta : List (String × String))
    (h1 : ¬(url = "" ∨ (List.lookup url meta).isSome = true))
    (h2 : env.cloneOk url = true) (h3 : env.extractOk url = true)
    (h4 : env.cleanupOk url = true) :
    activityLoop env (url :: rest) meta
      = ⟨(activityLoop env rest ((url, env.lastCommit url) :: meta)).meta,
          ((url, env.lastCommit url) :: meta)
            :: (activityLoop env rest ((url, env.lastCommit url) :: meta)).writes,
          url :: (activityLoop env rest ((url, env.lastCommit url) :: meta)).clones,
          (activityLoop env rest ((url, env.lastCommit url) :: meta)).term⟩ := by
  simp only [activityLoop]
  rw [if_neg h1, if_pos h2, if_pos h3, if_pos h4]

theorem loop_cons_extract_fail (env : ActEnv) (url : String) (rest : List String)
    (meta : List (String × String))
    (h1 : ¬(url = "" ∨ (List.lookup url meta).isSome = true))
    (h2 : env.cloneOk url = true) (h3 : env.extractOk url = false)
    (h4 : env.cleanupOk url = true) :
    activityLoop env (url :: rest) meta
      = ⟨(activityLoop env rest meta).meta,
          meta :: (activityLoop env rest meta).writes,
          url :: (activityLoop env rest meta).clones,
          (activityLoop env rest meta).term⟩ := by
  simp only [activityLoop]
  rw [if_neg h1, if_pos h2, if_neg (by simp [h3]), if_pos h4]

theorem loop_cons_cleanup_fail (env : ActEnv) (url : String) (rest : List String)
    (meta : List (String × String))
    (h1 : ¬(url = "" ∨ (List.lookup url meta).isSome = true))
    (h2 : env.cloneOk url = true) (h3 : env.extractOk url = true)
    (h4 : env.cleanupOk url = false) :
    activityLoop env (url :: rest) meta
      = ⟨(url, env.lastCommit url) :: meta, [(url, env.lastCommit url) :: meta],
          [url], .fatal 1 ulimitMsg⟩ := by
  simp only [activityLoop]
  rw [if_neg h1, if_pos h2, if_pos h3, if_neg (by simp [h4])]

theorem loop_cons_cleanup_fail_unrecorded (env : ActEnv) (url : String)
    (rest : List String) (meta : List (String × String))
    (h1 : ¬(url = "" ∨ (List.lookup url meta).isSome = true))
    (h2 : env.cloneOk url = true) (h3 : env.extractOk url = false)
    (h4 : env.cleanupOk url = false) :
    activityLoop env (url :: rest) meta
      = ⟨meta, [meta], [url], .fatal 1 ulimitMsg⟩ := by
  simp only [activityLoop]
  rw [if_neg h1, if_pos h2, if_neg (by simp [h3]), if_neg (by simp [h4])]

theorem loop_preserves (env : ActEnv) (urls : List String) :
    ∀ meta u v, List.lookup u meta = some v →
      List.lookup u (activityLoop env urls meta).meta = some v := by
  induction urls with
  | nil => intro meta u v h; rw [loop_nil]; exact h
  | cons url rest ih =>
    intro meta u v h
    by_cases c1 : url = "" ∨ (List.lookup url meta).isSome = true
    · rw [loop_cons_skip env url rest meta c1]; exact ih meta u v h
    · by_cases c2 : env.cloneOk url = true
      · by_cases c3 : env.extractOk url = true
        · have hins : List.lookup u ((url, env.lastCommit url) :: meta) = some v := by
            have hne : (u == url) = false := by
              by_cases hue : u = url
              · subst hue; exact absurd (Or.inr (by simp [h])) c1
              · simp [hue]
            simp [List.lookup_cons, hne, h]
          by_cases c4 : env.cleanupOk url = true
          · rw [loop_cons_recorded env url rest meta c1 c2 c3 c4]
            exact ih _ u v hins
          · rw [loop_cons_cleanup_fail env url rest meta c1 c2 c3
              (by revert c4; cases env.cleanupOk url <;> simp)]
            exact hins
        · have c3' : env.extractOk url = false := by
            revert c3; cases env.extractOk url <;> simp
          by_cases c4 : env.cleanupOk url = true
          · rw [loop_cons_extract_fail env url rest meta c1 c2 c3' c4]
            exact ih meta u v h
          · rw [loop_cons_cleanup_fail_unrecorded env url rest meta c1 c2 c3'
              (by revert c4; cases env.cleanupOk url <;> simp)]
            exact h
      · rw [loop_cons_clone_fail env url rest meta c1
          (by revert c2; cases env.cloneOk url <;> simp)]
        exact ih meta u v h

theorem loop_new_keys (env : ActEnv) (urls : List String) :
    ∀ meta u v, List.lookup u (activityLoop env urls meta).meta = some v →
      List.lookup u meta = some v
      ∨ (env.cloneOk u = true ∧ env.extractOk u = true ∧ v = env.lastCommit u) := by
  induction urls with
  | nil => intro meta u v h; rw [loop_nil] at h; exact Or.inl h
  | cons url rest ih =>
    intro meta u v h
    by_cases c1 : url = "" ∨ (List.lookup url meta).isSome = true
    · rw [loop_cons_skip env url rest meta c1] at h; exact ih meta u v h
    · by_cases c2 : env.cloneOk url = true
      · by_cases c3 : env.extractOk url = true
        · by_cases c4 : env.cleanupOk url = true
          · rw [loop_cons_recorded env url rest meta c1 c2 c3 c4] at h
            rcases ih _ u v h with hc | hnew
            · rw [List.lookup_cons] at hc
              by_cases hue : (u == url) = true
              · have : u = url := by simpa using hue
                subst this
                simp only [hue] at hc
                exact Or.inr ⟨c2, c3, Option.some.inj hc.symm⟩
              · have hne : (u == url) = false := by
                  revert hue; cases u == url <;> simp
                simp only [hne] at hc
                exact Or.inl hc
            · exact Or.inr hnew
          · rw [loop_cons_cleanup_fail env url rest meta c1 c2 c3
              (by revert c4; cases env.cleanupOk url <;> simp)] at h
            simp only [List.lookup_cons] at h
            by_cases hue : (u == url) = true
            · have : u = url := by simpa using hue
              subst this
              simp only [hue] at h
              exact Or.inr ⟨c2, c3, Option.some.inj h.symm⟩
            · have hne : (u == url) = false := by
                revert hue; cases u == url <;> simp
              simp only [hne] at h
              exact Or.inl h
        · have c3' : env.extractOk url = false := by
            revert c3; cases env.extractOk url <;> simp
          by_cases c4 : env.cleanupOk url = true
          · rw [loop_cons_extract_fail env url rest meta c1 c2 c3' c4] at h
            exact ih meta u v h
          · rw [loop_cons_cleanup_fail_unrecorded env url rest meta c1 c2 c3'
              (by revert c4; cases env.cleanupOk url <;> simp)] at h
            exact Or.inl h
      · rw [loop_cons_clone_fail env url rest meta c1
          (by revert c2; cases env.cloneOk url <;> simp)] at h
        exact ih meta u v h

theorem loop_idem (env : ActEnv) (urls : List String) :
    ∀ meta, (activityLoop env urls meta).term = .normal →
      (activityLoop env urls (activityLoop env urls meta).meta).meta
          = (activityLoop env urls meta).meta
      ∧ (activityLoop env urls (activityLoop env urls meta).meta).term = .normal
      ∧ ∀ u ∈ (activityLoop env urls (activityLoop env urls meta).meta).clones,
          List.lookup u (activityLoop env urls meta).meta = none := by
  induction urls with
  | nil =>
    intro meta _
    rw [loop_nil]
    rw [loop_nil]
    exact ⟨rfl, rfl, by simp⟩
  | cons url rest ih =>
    intro meta hterm
    by_cases c1 : url = "" ∨ (List.lookup url meta).isSome = true
    · rw [loop_cons_skip env url rest meta c1] at hterm ⊢
      have c1' : url = "" ∨
          (List.lookup url (activityLoop env rest meta).meta).isSome = true := by
        rcases c1 with he | hs
        · exact Or.inl he
        · obtain ⟨v, hv⟩ := Option.isSome_iff_exists.mp hs
          exact Or.inr (by simp [loop_preserves env rest meta url v hv])
      rw [loop_cons_skip env url rest _ c1']
      exact ih meta hterm
    · by_cases c2 : env.cloneOk url = true
      · by_cases c3 : env.extractOk url = true
        · by_cases c4 : env.cleanupOk url = true
          · rw [loop_cons_recorded env url rest meta c1 c2 c3 c4] at hterm ⊢
            simp only at hterm ⊢
            have hlc : List.lookup url ((url, env.lastCommit url) :: meta)
                = some (env.lastCommit url) := by simp [List.lookup_cons]
            have c1' : url = "" ∨ (List.lookup url
                (activityLoop env rest ((url, env.lastCommit url) :: meta)).meta).isSome
                  = true :=
              Or.inr (by simp [loop_preserves env rest _ url _ hlc])
            rw [loop_cons_skip env url rest _ c1']
            exact ih _ hterm
          · rw [loop_cons_cleanup_fail env url rest meta c1 c2 c3
              (by revert c4; cases env.cleanupOk url <;> simp)] at hterm
            cases hterm
        · have c3' : env.extractOk url = false := by
            revert c3; cases env.extractOk url <;> simp
          by_cases c4 : env.cleanupOk url = true
          · rw [loop_cons_extract_fail env url rest meta c1 c2 c3' c4] at hterm ⊢
            simp only at hterm ⊢
            have hnone : List.lookup url (activityLoop env rest meta).meta = none := by
              cases hl : List.lookup url (activityLoop env rest meta).meta with
              | none => rfl
              | some v =>
                rcases loop_new_keys env rest meta url v hl with hs | ⟨_, he, _⟩
                · exact absurd (Or.inr (by simp [hs])) c1
                · rw [c3'] at he; cases he
            have c1'' : ¬(url = "" ∨
                (List.lookup url (activityLoop env rest meta).meta).isSome = true) := by
              rintro (he | hs)
              · exact c1 (Or.inl he)
              · rw [hnone] at hs; cases hs
            rw [loop_cons_extract_fail env url rest _ c1'' c2 c3' c4]
            simp only
            obtain ⟨ha, hb, hc⟩ := ih meta hterm
            refine ⟨ha, hb, ?_⟩
            intro u hu
            rcases List.mem_cons.mp hu with heq | htl
            · subst heq; exact hnone
            · exact hc u htl
          · rw [loop_cons_cleanup_fail_unrecorded env url rest meta c1 c2 c3'
              (by revert c4; cases env.cleanupOk url <;> simp)] at hterm
            cases hterm
      · have c2' : env.cloneOk url = false := by
          revert c2; cases env.cloneOk url <;> simp
        rw [loop_cons_clone_fail env url rest meta c1 c2'] at hterm ⊢
        simp only at hterm ⊢
        have hnone : List.lookup url (activityLoop env rest meta).meta = none := by
          cases hl : List.lookup url (activityLoop env rest meta).meta with
          | none => rfl
          | some v =>
            rcases loop_new_keys env rest meta url v hl with hs | ⟨hcl, _, _⟩
            · exact absurd (Or.inr (by simp [hs])) c1
            · rw [c2'] at hcl; cases hcl
        have c1'' : ¬(url = "" ∨
            (List.lookup url (activityLoop env rest meta).meta).isSome = true) := by
          rintro (he | hs)
          · exact c1 (Or.inl he)
          · rw [hnone] at hs; cases hs
        rw [loop_cons_clone_fail env url rest _ c1'' c2']
        simp only
        obtain ⟨ha, hb, hc⟩ := ih meta hterm
        refine ⟨ha, hb, ?_⟩
        intro u hu
        rcases List.mem_cons.mp hu with heq | htl
        · subst heq; exact hnone
        · exact hc u htl

theorem mem_setInsert (s : List String) (a x : String) :
    x ∈ setInsert s a ↔ x ∈ s ∨ x = a := by
  unfold setInsert
  by_cases h : s.contains a
  · rw [if_pos h]
    have ha : a ∈ s := by simpa using h
    constructor
    · exact Or.inl
    · rintro (hx | rfl)
      · exact hx
      · exact ha
  · rw [if_neg h]
    simp

theorem mem_foldl_setInsert (l acc : List String) (x : String) :
    x ∈ l.foldl setInsert acc ↔ x ∈ acc ∨ x ∈ l := by
  induction l generalizing acc with
  | nil => simp
  | cons a l ih =>
    rw [List.foldl_cons, ih, mem_setInsert]
    simp only [List.mem_cons]
    tauto

theorem mem_global_aux (now : Instant) (recs : List PlotRec)
    (months : List Nat) (acc : List String) (x : String) :
    x ∈ months.foldl (fun a month => (relativeSet now recs month).foldl setInsert a) acc
      ↔ x ∈ acc ∨ ∃ m ∈ months, x ∈ relativeSet now recs m := by
  induction months generalizing acc with
  | nil => simp
  | cons m ms ih =>
    rw [List.foldl_cons, ih, mem_foldl_setInsert]
    simp only [List.mem_cons]
    constructor
    · rintro ((ha | hm) | ⟨m', hm', hx⟩)
      · exact Or.inl ha
      · exact Or.inr ⟨m, Or.inl rfl, hm⟩
      · exact Or.inr ⟨m', Or.inr hm', hx⟩
    · rintro (ha | ⟨m', hm' | hm', hx⟩)
      · exact Or.inl (Or.inl ha)
      · subst hm'; exact Or.inl (Or.inr hx)
      · exact Or.inr ⟨m', hm', hx⟩

theorem mem_global (now : Instant) (recs : List PlotRec) (x : String) :
    x ∈ highValuedGlobal now recs
      ↔ ∃ m, 24 ≤ m ∧ m ≤ 40 ∧ x ∈ relativeSet now recs m := by
  unfold highValuedGlobal
  rw [mem_global_aux]
  simp only [List.mem_range'_1, List.not_mem_nil, false_or]
  constructor
  · rintro ⟨m, ⟨h1, h2⟩, hx⟩
    exact ⟨m, h1, by omega, hx⟩
  · rintro ⟨m, h1, h2, hx⟩
    exact ⟨m, ⟨h1, by omega⟩, hx⟩

theorem notFuture_eq (now : Instant) {r : PlotRec} {p : Date}
    (hp : r.published = some p) (month : Nat) :
    notFuture now r month = decide (Instant.lt (midnight (p.addMonths month)) now) := by
  unfold notFuture
  rw [hp]

theorem nextGtToday_eq (now : Instant) (month : Nat) {r : PlotRec} {p : Date}
    (hp : r.published = some p) :
    nextGtToday now month r
      = decide (Instant.lt now (midnight (p.addMonths (month + 1)))) := by
  unfold nextGtToday
  rw [hp]

theorem highValue_eq {r : PlotRec} {p : Date} (hp : r.published = some p)
    (month : Nat) :
    highValue r month = decide (Date.lt (p.addMonths month) r.last_commit) := by
  unfold highValue
  rw [hp]

theorem mem_relativeSet (now : Instant) (recs : List PlotRec) (M : Nat)
    (r : PlotRec) (p : Date)
    (hnd : (recs.map (fun q => q.repo)).Nodup)
    (hr : r ∈ recs) (hp : r.published = some p) :
    r.repo ∈ relativeSet now recs M
      ↔ (notFuture now r M = true
          ∧ Instant.lt now (midnight (p.addMonths (M + 1)))) := by
  unfold relativeSet notFutureRecs
  simp only [List.mem_map, List.mem_filter]
  constructor
  · rintro ⟨q, ⟨⟨hqm, hqnf⟩, hqall⟩, hqrepo⟩
    have hqr : q = r := List.inj_on_of_nodup_map hnd hqm hr hqrepo
    subst hqr
    refine ⟨hqnf, ?_⟩
    have hq := List.all_eq_true.mp hqall q (List.mem_filter.mpr ⟨hqm, by simp⟩)
    rw [nextGtToday_eq now M hp] at hq
    exact of_decide_eq_true hq
  · rintro ⟨hnf, hlt⟩
    refine ⟨r, ⟨⟨hr, hnf⟩, ?_⟩, rfl⟩
    rw [List.all_eq_true]
    intro q hq
    obtain ⟨hqm, hqrepo⟩ := List.mem_filter.mp hq
    have hqr : q = r := List.inj_on_of_nodup_map hnd hqm hr (by simpa using hqrepo)
    subst hqr
    rw [nextGtToday_eq now M hp]
    exact decide_eq_true hlt

/-!  ## Claim theorems -/

/-- C1: for every URL in the reconciled `results.json` store, the canonical
`published` field equals the zenodo (DOI-derived) publication date when that
date is present (as a non-empty timestamp string), and otherwise equals the
first-commit `created_at` date; `added_rsepedia` and `zenodo_published` are
copied unchanged from the URL's DateBundle. -/
theorem reconciled_published_priority
    (meta : List (String × String)) (added : List (String × DateBundle))
    (results : List (String × ReconciledRecord)) (url : String)
    (r : ReconciledRecord) (b : DateBundle)
    (hok : combineResults meta added = .ok results)
    (hmem : (url, r) ∈ results)
    (hb : List.lookup url added = some b)
    (hne : b.published ≠ some "") :
    r.added_rsepedia = b.created_at ∧ r.zenodo_published = b.published
    ∧ (∀ z, b.published = some z → r.published = z)
    ∧ (b.published = none → r.published = b.created_at) := by
  obtain ⟨ts, b', hb', hr⟩ := combineResults_mem hok url r hmem
  have hbb : b' = b := by
    rw [hb] at hb'
    exact (Option.some.inj hb').symm
  subst hbb
  subst hr
  refine ⟨rfl, rfl, ?_, ?_⟩
  · intro z hz
    have hzne : z ≠ "" := fun hzz => hne (by rw [hz, hzz])
    simp [mkReconciled, hz, hzne]
  · intro hz
    simp [mkReconciled, hz]

/-- Witness for C1 at a concrete store: one ActivityRecord for `"u"`, whose
DateBundle has both a first-commit date and a zenodo publication date. -/
theorem reconciled_published_priority_witness :
    (mkReconciled "2021-02-03 04:05:06"
        ⟨"2020-01-01 00:00:00", DoiField.absent, some "2020-06-07"⟩).added_rsepedia
      = "2020-01-01 00:00:00"
    ∧ (mkReconciled "2021-02-03 04:05:06"
        ⟨"2020-01-01 00:00:00", DoiField.absent, some "2020-06-07"⟩).zenodo_published
      = some "2020-06-07"
    ∧ (∀ z, (some "2020-06-07" : Option String) = some z →
        (mkReconciled "2021-02-03 04:05:06"
          ⟨"2020-01-01 00:00:00", DoiField.absent, some "2020-06-07"⟩).published = z)
    ∧ ((some "2020-06-07" : Option String) = none →
        (mkReconciled "2021-02-03 04:05:06"
          ⟨"2020-01-01 00:00:00", DoiField.absent, some "2020-06-07"⟩).published
          = "2020-01-01 00:00:00") :=
  reconciled_published_priority
    [("u", "2021-02-03 04:05:06")]
    [("u", ⟨"2020-01-01 00:00:00", DoiField.absent, some "2020-06-07"⟩)]
    [("u", mkReconciled "2021-02-03 04:05:06"
        ⟨"2020-01-01 00:00:00", DoiField.absent, some "2020-06-07"⟩)]
    "u" (mkReconciled "2021-02-03 04:05:06"
        ⟨"2020-01-01 00:00:00", DoiField.absent, some "2020-06-07"⟩)
    ⟨"2020-01-01 00:00:00", DoiField.absent, some "2020-06-07"⟩
    rfl (by simp) rfl (by simp)

/-- C2: a repository with a valid published date is classified "high value at
M" (for any M in 0..40) if and only if its last commit is strictly later than
`published + M months`; concretely, for published 2020-01-01 and last commit
2022-06-01 it is high value at month 24 and not at month 30. -/
theorem high_value_strict_classification (r : PlotRec) (p : Date) (M : Nat)
    (hp : r.published = some p) (hM : M ≤ 40) :
    (highValue r M = true ↔ Date.lt (p.addMonths M) r.last_commit)
    ∧ highValue ⟨"ex", ⟨2022, 6, 1⟩, some ⟨2020, 1, 1⟩⟩ 24 = true
    ∧ highValue ⟨"ex", ⟨2022, 6, 1⟩, some ⟨2020, 1, 1⟩⟩ 30 = false := by
  refine ⟨?_, by decide, by decide⟩
  rw [highValue_eq hp M]
  exact decide_eq_true_iff

/-- Witness for C2 at a concrete record and month. -/
theorem high_value_strict_classification_witness :
    ((0 : Nat) ≤ 40)
    ∧ ((highValue ⟨"w", ⟨2022, 1, 2⟩, some ⟨2020, 1, 1⟩⟩ 0 = true
        ↔ Date.lt (Date.addMonths ⟨2020, 1, 1⟩ 0) (⟨2022, 1, 2⟩ : Date))
      ∧ highValue ⟨"ex", ⟨2022, 6, 1⟩, some ⟨2020, 1, 1⟩⟩ 24 = true
      ∧ highValue ⟨"ex", ⟨2022, 6, 1⟩, some ⟨2020, 1, 1⟩⟩ 30 = false) :=
  ⟨by decide,
    high_value_strict_classification ⟨"w", ⟨2022, 1, 2⟩, some ⟨2020, 1, 1⟩⟩
      ⟨2020, 1, 1⟩ 0 rfl (by decide)⟩

/-- C3 counterexample: with a single repository whose publication window is
entirely in the future, the month-0 denominator is zero and the percentage
computation raises `ZeroDivisionError` instead of reporting an undefined
percentage. -/
theorem percent_zero_denominator_cex :
    percentUpdated ⟨⟨2023, 1, 1⟩, 43200⟩ [⟨"r", ⟨2024, 1, 1⟩, some ⟨2030, 1, 1⟩⟩] 0
      = .error "ZeroDivisionError" := rfl

/-- C3 amended: the reported percentage equals count(high value at M) /
count(not future at M) whenever the denominator is non-zero; when the
denominator is zero the computation raises `ZeroDivisionError` (aborting the
run) rather than reporting the percentage as undefined. -/
theorem percent_updated_amended (now : Instant) (recs : List PlotRec) (M : Nat) :
    (percentUpdated now recs M = .error "ZeroDivisionError"
      ↔ recs.countP (fun r => notFuture now r M) = 0)
    ∧ (recs.countP (fun r => notFuture now r M) ≠ 0 →
        percentUpdated now recs M
          = .ok ((recs.countP (fun r => highValue r M) : ℚ)
              / (recs.countP (fun r => notFuture now r M) : ℚ))) := by
  have hnf : (notFutureRecs now recs M).length
      = recs.countP (fun r => notFuture now r M) :=
    (List.countP_eq_length_filter _ _).symm
  have hu : (updatedRepos recs M).length
      = recs.countP (fun r => highValue r M) := by
    rw [updatedRepos, List.length_map]
    exact (List.countP_eq_length_filter _ _).symm
  constructor
  · unfold percentUpdated
    rw [hnf]
    by_cases h : recs.countP (fun r => notFuture now r M) = 0
    · simp [h]
    · simp [h]
  · intro h
    unfold percentUpdated
    rw [hnf, hu, if_neg h]

/-- Witness for C3's amended statement at a non-zero denominator. -/
theorem percent_updated_amended_witness :
    ([⟨"r", ⟨2024, 1, 1⟩, some ⟨2020, 1, 1⟩⟩] : List PlotRec).countP
        (fun r => notFuture ⟨⟨2023, 1, 1⟩, 43200⟩ r 0) ≠ 0
    ∧ percentUpdated ⟨⟨2023, 1, 1⟩, 43200⟩ [⟨"r", ⟨2024, 1, 1⟩, some ⟨2020, 1, 1⟩⟩] 0
      = .ok ((([⟨"r", ⟨2024, 1, 1⟩, some ⟨2020, 1, 1⟩⟩] : List PlotRec).countP
            (fun r => highValue r 0) : ℚ)
          / (([⟨"r", ⟨2024, 1, 1⟩, some ⟨2020, 1, 1⟩⟩] : List PlotRec).countP
            (fun r => notFuture ⟨⟨2023, 1, 1⟩, 43200⟩ r 0) : ℚ)) :=
  ⟨by decide,
    (percent_updated_amended ⟨⟨2023, 1, 1⟩, 43200⟩
      [⟨"r", ⟨2024, 1, 1⟩, some ⟨2020, 1, 1⟩⟩] 0).2 (by decide)⟩

/-- C10: high-value status can only be lost as the month offset grows: a
repository (with a valid published date) high value at month M+1 is high
value at month M, and the per-month count `updated_at_period` is
non-increasing across adjacent offsets in 0..40. -/
theorem high_value_count_antitone (recs : List PlotRec) (M : Nat)
    (hM : M ≤ 39) :
    (∀ r : PlotRec, ∀ p : Date, r.published = some p →
        highValue r (M + 1) = true → highValue r M = true)
    ∧ updatedAtPeriod recs (M + 1) ≤ updatedAtPeriod recs M := by
  have mono : ∀ r : PlotRec, highValue r (M + 1) = true → highValue r M = true := by
    intro r h
    cases hp : r.published with
    | none => rw [highValue] at h ⊢; rw [hp] at h; cases h
    | some p =>
      rw [highValue_eq hp] at h ⊢
      exact decide_eq_true (Date.lt_trans (Date.addMonths_lt_succ p M)
        (of_decide_eq_true h))
  refine ⟨fun r p _ => mono r, ?_⟩
  unfold updatedAtPeriod updatedRepos
  rw [List.length_map, List.length_map, ← List.countP_eq_length_filter,
    ← List.countP_eq_length_filter]
  exact List.countP_mono_left (fun r _ h => mono r h)

/-- Witness for C10 at a concrete record list and month offset 24. -/
theorem high_value_count_antitone_witness :
    ((24 : Nat) ≤ 39)
    ∧ updatedAtPeriod [⟨"a", ⟨2022, 2, 1⟩, some ⟨2020, 1, 1⟩⟩,
        ⟨"b", ⟨2023, 1, 1⟩, some ⟨2020, 1, 1⟩⟩] 25
      ≤ updatedAtPeriod [⟨"a", ⟨2022, 2, 1⟩, some ⟨2020, 1, 1⟩⟩,
        ⟨"b", ⟨2023, 1, 1⟩, some ⟨2020, 1, 1⟩⟩] 24 :=
  ⟨by decide,
    (high_value_count_antitone [⟨"a", ⟨2022, 2, 1⟩, some ⟨2020, 1, 1⟩⟩,
      ⟨"b", ⟨2023, 1, 1⟩, some ⟨2020, 1, 1⟩⟩] 24 (by decide)).2⟩

/-- C4 counterexample: a catalog entry with a zenodo DOI whose HTTP lookup
raises (network failure) makes `derive_creation_timestamps` propagate the
exception — the collection run aborts instead of yielding `published = null`. -/
theorem doi_failure_aborts_cex :
    derive_creation_timestamps (fun _ => .fail "ConnectionError")
      [⟨"https://github.com/x/y", .str "10.5281/zenodo.123", .absent,
        "2020-01-01 00:00:00"⟩] []
      = .error "ConnectionError" := rfl

/-- C4 amended: a network or parsing failure while resolving a zenodo DOI
propagates out of `look_for_doi` and aborts the collection run (there is no
exception handler around it); only a well-formed provider response lacking
the `metadata` field yields `published = null` with the DOI retained, and
absence of any identifier yields `(null, null)`. -/
theorem doi_failure_policy_amended (fetch : String → FetchResult)
    (u c d e : String) (rest : List RepoEntry)
    (added : List (String × DateBundle))
    (hu : (List.lookup u added).isSome = false)
    (hd : d ≠ "") (hz : containsZenodo d = true)
    (hf : fetch (recordId d) = .fail e) :
    derive_creation_timestamps fetch (⟨u, .str d, .absent, c⟩ :: rest) added
      = .error e
    ∧ look_for_doi (.str d) .absent fetch = .error e
    ∧ look_for_doi .absent .absent fetch = .ok (.absent, none)
    ∧ (∀ f2 : String → FetchResult, f2 (recordId d) = .ok none →
        look_for_doi (.str d) .absent f2 = .ok (.str d, none))
    ∧ (∀ f2 : String → FetchResult, ∀ pub : String,
        f2 (recordId d) = .ok (some pub) →
        look_for_doi (.str d) .absent f2 = .ok (.str d, some pub)) := by
  have hlook : look_for_doi (.str d) .absent fetch = .error e := by
    simp [look_for_doi, pyTruthy, hd, hz, hf]
  refine ⟨?_, hlook, rfl, ?_, ?_⟩
  · simp only [derive_creation_timestamps]
    rw [if_neg (by simp [hu]), hlook]
  · intro f2 hf2
    simp [look_for_doi, pyTruthy, hd, hz, hf2]
  · intro f2 pub hf2
    simp [look_for_doi, pyTruthy, hd, hz, hf2]

/-- Witness for C4's amended statement at a concrete zenodo DOI and failing
fetch. -/
theorem doi_failure_policy_amended_witness :
    derive_creation_timestamps (fun _ => FetchResult.fail "ConnectionError")
      [⟨"u", .str "10.5281/zenodo.123", .absent, "2020-01-01 00:00:00"⟩] []
      = .error "ConnectionError"
    ∧ look_for_doi (.str "10.5281/zenodo.123") .absent
        (fun _ => FetchResult.fail "ConnectionError") = .error "ConnectionError"
    ∧ look_for_doi .absent .absent (fun _ => FetchResult.fail "ConnectionError")
      = .ok (.absent, none)
    ∧ (∀ f2 : String → FetchResult,
        f2 (recordId "10.5281/zenodo.123") = .ok none →
        look_for_doi (.str "10.5281/zenodo.123") .absent f2
          = .ok (.str "10.5281/zenodo.123", none))
    ∧ (∀ f2 : String → FetchResult, ∀ pub : String,
        f2 (recordId "10.5281/zenodo.123") = .ok (some pub) →
        look_for_doi (.str "10.5281/zenodo.123") .absent f2
          = .ok (.str "10.5281/zenodo.123", some pub)) :=
  doi_failure_policy_amended (fun _ => FetchResult.fail "ConnectionError")
    "u" "2020-01-01 00:00:00" "10.5281/zenodo.123" "ConnectionError" [] []
    rfl (by decide) (by decide) rfl

/-- C5 counterexample: processing two fresh catalog entries through the date
phase produces a final `rsepedia-times.json` store with 2 entries but only a
single write of that store — there is no checkpoint after the first entry, so
a crash then loses that entry's work. -/
theorem date_store_single_write_cex :
    (datePhaseWrites (fun _ => FetchResult.ok none)
        [⟨"u1", .absent, .absent, "2020-01-01 00:00:00"⟩,
          ⟨"u2", .absent, .absent, "2020-02-01 00:00:00"⟩] []).map
      (fun p => (p.1.length, p.2.length)) = .ok (2, 1) := rfl

/-- C5 amended: the ActivityRecord store `last-commit-times.json` is rewritten
in full immediately after every recorded entry (before the rest of the
catalog is processed), but the DateBundle store `rsepedia-times.json` is
written exactly once, after the entire date phase completes — a crash during
the date phase loses all of that phase's work, not at most one entry. -/
theorem checkpoint_granularity_amended (env : ActEnv) (url : String)
    (rest : List String) (meta : List (String × String))
    (fetch : String → FetchResult) (repos : List RepoEntry)
    (added st : List (String × DateBundle)) (tr : List String)
    (hu : url ≠ "") (hm : List.lookup url meta = none)
    (hc : env.cloneOk url = true) (he : env.extractOk url = true)
    (hcl : env.cleanupOk url = true)
    (hd : derive_creation_timestamps fetch repos added = .ok (st, tr)) :
    (activityLoop env (url :: rest) meta).writes
      = ((url, env.lastCommit url) :: meta)
          :: (activityLoop env rest ((url, env.lastCommit url) :: meta)).writes
    ∧ datePhaseWrites fetch repos added = .ok (st, [st]) := by
  constructor
  · rw [loop_cons_recorded env url rest meta (by simp [hu, hm]) hc he hcl]
  · unfold datePhaseWrites
    rw [hd]

/-- Witness for C5's amended statement. -/
theorem checkpoint_granularity_amended_witness :
    (activityLoop ⟨fun _ => true, fun _ => true, fun _ => "2021-01-01 00:00:00",
        fun _ => true⟩ ["a", "b"] []).writes
      = (("a", "2021-01-01 00:00:00") :: ([] : List (String × String)))
          :: (activityLoop ⟨fun _ => true, fun _ => true,
              fun _ => "2021-01-01 00:00:00", fun _ => true⟩ ["b"]
              (("a", "2021-01-01 00:00:00") :: [])).writes
    ∧ datePhaseWrites (fun _ => FetchResult.ok none)
        [⟨"u1", .absent, .absent, "2020-01-01 00:00:00"⟩] []
      = .ok ([("u1", ⟨"2020-01-01 00:00:00", .absent, none⟩)],
          [[("u1", ⟨"2020-01-01 00:00:00", .absent, none⟩)]]) :=
  checkpoint_granularity_amended
    ⟨fun _ => true, fun _ => true, fun _ => "2021-01-01 00:00:00", fun _ => true⟩
    "a" ["b"] [] (fun _ => FetchResult.ok none)
    [⟨"u1", .absent, .absent, "2020-01-01 00:00:00"⟩] []
    [("u1", ⟨"2020-01-01 00:00:00", .absent, none⟩)] ["u1"]
    (by decide) rfl rfl rfl rfl rfl

/-- C6: if removing the cloned scratch directory fails right after an entry
has been recorded, the loop immediately writes the checkpoint containing
exactly the recorded entries (the current one included), terminates with
`sys.exit` — a non-zero status (code 1) — and the file-descriptor-limit
diagnostic, and processes none of the remaining catalog. -/
theorem cleanup_failure_flush_exit (env : ActEnv) (url : String)
    (rest : List String) (meta : List (String × String))
    (hu : url ≠ "") (hm : List.lookup url meta = none)
    (hc : env.cloneOk url = true) (he : env.extractOk url = true)
    (hcl : env.cleanupOk url = false) :
    activityLoop env (url :: rest) meta
      = ⟨(url, env.lastCommit url) :: meta, [(url, env.lastCommit url) :: meta],
          [url], .fatal 1 ulimitMsg⟩
    ∧ (1 : Nat) ≠ 0 := by
  refine ⟨?_, by decide⟩
  exact loop_cons_cleanup_fail env url rest meta (by simp [hu, hm]) hc he hcl

/-- Witness for C6: cleanup fails on the first entry of a two-entry catalog;
the checkpoint holds exactly that one recorded entry and `"b"` is never
processed. -/
theorem cleanup_failure_flush_exit_witness :
    activityLoop ⟨fun _ => true, fun _ => true, fun _ => "2021-05-05 00:00:00",
        fun _ => false⟩ ["a", "b"] []
      = ⟨[("a", "2021-05-05 00:00:00")], [[("a", "2021-05-05 00:00:00")]],
          ["a"], .fatal 1 ulimitMsg⟩
    ∧ (1 : Nat) ≠ 0 :=
  cleanup_failure_flush_exit
    ⟨fun _ => true, fun _ => true, fun _ => "2021-05-05 00:00:00", fun _ => false⟩
    "a" ["b"] [] (by decide) rfl rfl rfl rfl

/-- C8 counterexample: a URL with an ActivityRecord but no DateBundle makes
the terminal combination step raise `KeyError` — it is not silently omitted. -/
theorem missing_bundle_keyerror_cex :
    combineResults [("u", "2020-01-01 00:00:00")] [] = .error "KeyError: u" := rfl

/-- C8 amended: the terminal combination step iterates the ActivityRecord
store and looks each URL up in the DateBundle store; a missing DateBundle
raises `KeyError` (aborting before `results.json` is written) rather than
omitting the URL.  When every ActivityRecord URL has a DateBundle, the step
succeeds and emits exactly the ActivityRecord URL set (which is then the
intersection of the two key sets). -/
theorem combine_covered_amended (meta : List (String × String))
    (added : List (String × DateBundle))
    (h : ∀ p ∈ meta, (List.lookup p.1 added).isSome = true) :
    ∃ rs, combineResults meta added = .ok rs
      ∧ rs.map Prod.fst = meta.map Prod.fst := by
  induction meta with
  | nil => exact ⟨[], rfl, rfl⟩
  | cons p rest ih =>
    obtain ⟨url, ts⟩ := p
    have h1 : (List.lookup url added).isSome = true := h (url, ts) (by simp)
    obtain ⟨b, hb⟩ := Option.isSome_iff_exists.mp h1
    obtain ⟨rs, hok, hkeys⟩ := ih (fun q hq => h q (by simp [hq]))
    refine ⟨(url, mkReconciled ts b) :: rs, ?_, by simp [hkeys]⟩
    simp only [combineResults]
    rw [hb, hok]

/-- Witness for C8's amended statement: every ActivityRecord URL covered. -/
theorem combine_covered_amended_witness :
    ∃ rs, combineResults [("u", "2021-01-01 00:00:00")]
        [("u", ⟨"2020-01-01 00:00:00", DoiField.absent, none⟩)] = .ok rs
      ∧ rs.map Prod.fst
        = ([("u", "2021-01-01 00:00:00")] : List (String × String)).map Prod.fst :=
  combine_covered_amended [("u", "2021-01-01 00:00:00")]
    [("u", ⟨"2020-01-01 00:00:00", DoiField.absent, none⟩)]
    (by intro p hp; simp at hp; subst hp; rfl)

/-- C7 counterexample: with `published = 2020-12-01` and
`now = 2023-01-01 00:00:00`, `published + 25 months` equals `now` exactly, so
it is `≥ now`; the repository is not-future at month 24, yet the code's strict
`next_month > today` test excludes it from both the month-24 relative set and
the global accumulator — refuting the claimed `≥` boundary. -/
theorem relative_boundary_cex :
    notFuture ⟨⟨2023, 1, 1⟩, 0⟩ ⟨"r", ⟨2021, 1, 1⟩, some ⟨2020, 12, 1⟩⟩ 24 = true
    ∧ midnight (Date.addMonths ⟨2020, 12, 1⟩ 25) = ⟨⟨2023, 1, 1⟩, 0⟩
    ∧ relativeSet ⟨⟨2023, 1, 1⟩, 0⟩ [⟨"r", ⟨2021, 1, 1⟩, some ⟨2020, 12, 1⟩⟩] 24 = []
    ∧ highValuedGlobal ⟨⟨2023, 1, 1⟩, 0⟩ [⟨"r", ⟨2021, 1, 1⟩, some ⟨2020, 12, 1⟩⟩]
      = [] := by
  decide

/-- C7 amended: for M ≥ 24, a not-future repository belongs to month M's
"relative" set (and hence to the global accumulator for that month) if and
only if `published + (M+1) months` is strictly later than now (the code tests
`next_month > today`, so equality with now excludes); the global accumulator
collects exactly the relative-set members over months 24..40 and is written
as a flat sorted list. -/
theorem relative_terminal_amended (now : Instant) (recs : List PlotRec)
    (M : Nat) (r : PlotRec) (p : Date)
    (hnd : (recs.map (fun q => q.repo)).Nodup)
    (hr : r ∈ recs) (hp : r.published = some p)
    (hM : 24 ≤ M) (hM' : M ≤ 40) :
    (r.repo ∈ relativeSet now recs M
      ↔ (notFuture now r M = true
          ∧ Instant.lt now (midnight (p.addMonths (M + 1)))))
    ∧ (∀ x : String, x ∈ writtenGlobal now recs
        ↔ ∃ m, 24 ≤ m ∧ m ≤ 40 ∧ x ∈ relativeSet now recs m)
    ∧ List.Sorted (fun a b : String => a ≤ b) (writtenGlobal now recs) := by
  refine ⟨mem_relativeSet now recs M r p hnd hr hp, ?_, ?_⟩
  · intro x
    unfold writtenGlobal
    rw [List.Perm.mem_iff (List.perm_insertionSort _ _)]
    exact mem_global now recs x
  · exact List.sorted_insertionSort _ _

/-- Witness for C7's amended statement at a concrete record that is in the
month-24 relative set. -/
theorem relative_terminal_amended_witness :
    (("r" : String) ∈ relativeSet ⟨⟨2023, 1, 1⟩, 0⟩
        [⟨"r", ⟨2021, 1, 1⟩, some ⟨2020, 12, 2⟩⟩] 24
      ↔ (notFuture ⟨⟨2023, 1, 1⟩, 0⟩ ⟨"r", ⟨2021, 1, 1⟩, some ⟨2020, 12, 2⟩⟩ 24
            = true
          ∧ Instant.lt ⟨⟨2023, 1, 1⟩, 0⟩
            (midnight (Date.addMonths ⟨2020, 12, 2⟩ 25))))
    ∧ (∀ x : String, x ∈ writtenGlobal ⟨⟨2023, 1, 1⟩, 0⟩
          [⟨"r", ⟨2021, 1, 1⟩, some ⟨2020, 12, 2⟩⟩]
        ↔ ∃ m, 24 ≤ m ∧ m ≤ 40 ∧ x ∈ relativeSet ⟨⟨2023, 1, 1⟩, 0⟩
            [⟨"r", ⟨2021, 1, 1⟩, some ⟨2020, 12, 2⟩⟩] m)
    ∧ List.Sorted (fun a b : String => a ≤ b)
        (writtenGlobal ⟨⟨2023, 1, 1⟩, 0⟩ [⟨"r", ⟨2021, 1, 1⟩, some ⟨2020, 12, 2⟩⟩]) :=
  relative_terminal_amended ⟨⟨2023, 1, 1⟩, 0⟩
    [⟨"r", ⟨2021, 1, 1⟩, some ⟨2020, 12, 2⟩⟩] 24
    ⟨"r", ⟨2021, 1, 1⟩, some ⟨2020, 12, 2⟩⟩ ⟨2020, 12, 2⟩
    (by decide) (by decide) rfl (by decide) (by decide)

/-- C9: a second run of the collection pipeline over the same catalog and the
stores produced by a completed first run changes neither store and performs
no DOI lookup or history search at all (the date-phase trace is empty) and no
clone for any URL already present in the ActivityRecord store: every clone it
attempts is for a URL absent from that store. -/
theorem second_run_idempotent (fetch : String → FetchResult) (env : ActEnv)
    (repos : List RepoEntry) (added0 : List (String × DateBundle))
    (meta0 : List (String × String)) (added1 : List (String × DateBundle))
    (tr1 : List String)
    (h1 : derive_creation_timestamps fetch repos added0 = .ok (added1, tr1))
    (h2 : (activityLoop env (repos.map (fun r => r.url)) meta0).term = .normal) :
    derive_creation_timestamps fetch repos added1 = .ok (added1, [])
    ∧ (activityLoop env (repos.map (fun r => r.url))
          ((activityLoop env (repos.map (fun r => r.url)) meta0).meta)).meta
        = (activityLoop env (repos.map (fun r => r.url)) meta0).meta
    ∧ (activityLoop env (repos.map (fun r => r.url))
          ((activityLoop env (repos.map (fun r => r.url)) meta0).meta)).term
        = .normal
    ∧ ∀ u ∈ (activityLoop env (repos.map (fun r => r.url))
          ((activityLoop env (repos.map (fun r => r.url)) meta0).meta)).clones,
        List.lookup u ((activityLoop env (repos.map (fun r => r.url)) meta0).meta)
          = none := by
  refine ⟨derive_idem (fun r hr => derive_covers h1 r hr), ?_⟩
  exact loop_idem env (repos.map (fun r => r.url)) meta0 h2

/-- Witness for C9 at a concrete one-entry catalog whose first run completes
normally. -/
theorem second_run_idempotent_witness :
    derive_creation_timestamps (fun _ => FetchResult.ok none)
        [⟨"u1", .absent, .absent, "2020-01-01 00:00:00"⟩]
        [("u1", ⟨"2020-01-01 00:00:00", .absent, none⟩)]
      = .ok ([("u1", ⟨"2020-01-01 00:00:00", .absent, none⟩)], [])
    ∧ (activityLoop ⟨fun _ => true, fun _ => true, fun _ => "2021-01-01 00:00:00",
          fun _ => true⟩
          ([⟨"u1", .absent, .absent, "2020-01-01 00:00:00"⟩].map
            (fun r : RepoEntry => r.url))
          ((activityLoop ⟨fun _ => true, fun _ => true,
              fun _ => "2021-01-01 00:00:00", fun _ => true⟩
              ([⟨"u1", .absent, .absent, "2020-01-01 00:00:00"⟩].map
                (fun r : RepoEntry => r.url)) []).meta)).meta
        = (activityLoop ⟨fun _ => true, fun _ => true,
            fun _ => "2021-01-01 00:00:00", fun _ => true⟩
            ([⟨"u1", .absent, .absent, "2020-01-01 00:00:00"⟩].map
              (fun r : RepoEntry => r.url)) []).meta
    ∧ (activityLoop ⟨fun _ => true, fun _ => true, fun _ => "2021-01-01 00:00:00",
          fun _ => true⟩
          ([⟨"u1", .absent, .absent, "2020-01-01 00:00:00"⟩].map
            (fun r : RepoEntry => r.url))
          ((activityLoop ⟨fun _ => true, fun _ => true,
              fun _ => "2021-01-01 00:00:00", fun _ => true⟩
              ([⟨"u1", .absent, .absent, "2020-01-01 00:00:00"⟩].map
                (fun r : RepoEntry => r.url)) []).meta)).term
        = .normal
    ∧ ∀ u ∈ (activityLoop ⟨fun _ => true, fun _ => true,
          fun _ => "2021-01-01 00:00:00", fun _ => true⟩
          ([⟨"u1", .absent, .absent, "2020-01-01 00:00:00"⟩].map
            (fun r : RepoEntry => r.url))
          ((activityLoop ⟨fun _ => true, fun _ => true,
              fun _ => "2021-01-01 00:00:00", fun _ => true⟩
              ([⟨"u1", .absent, .absent, "2020-01-01 00:00:00"⟩].map
                (fun r : RepoEntry => r.url)) []).meta)).clones,
        List.lookup u ((activityLoop ⟨fun _ => true, fun _ => true,
            fun _ => "2021-01-01 00:00:00", fun _ => true⟩
            ([⟨"u1", .absent, .absent, "2020-01-01 00:00:00"⟩].map
              (fun r : RepoEntry => r.url)) []).meta) = none :=
  second_run_idempotent (fun _ => FetchResult.ok none)
    ⟨fun _ => true, fun _ => true, fun _ => "2021-01-01 00:00:00", fun _ => true⟩
    [⟨"u1", .absent, .absent, "2020-01-01 00:00:00"⟩] []
    [] [("u1", ⟨"2020-01-01 00:00:00", .absent, none⟩)] ["u1"]
    rfl rfl
